import Mathlib

/-!
Shallow embedding of the OCR orchestration core of `src/app.py`:
page-set normalization, contiguous chunk planning, the chunked
rasterize-then-OCR pipeline, resource release, fast-mode configuration,
and the error boundary in `main`.

External collaborators (the rasterization backend `convert_from_bytes`,
the OCR engine `pytesseract`, and the image `close()` method) are
parameters of the embedded functions; their calls are recorded in
explicit traces so that claims about which calls happen can be stated.
-/

namespace OCRApp

/-- `MAX_PAGES_PER_CHUNK = 8` (src/app.py line 15). -/
def MAX_PAGES_PER_CHUNK : Nat := 8

/-- `FAST_MODE_MAX_DPI = 220` (src/app.py line 17). -/
def FAST_MODE_MAX_DPI : Nat := 220

/-- `FAST_TESSERACT_CONFIG = "--oem 3 --psm 6"` (src/app.py line 18). -/
def FAST_TESSERACT_CONFIG : String := "--oem 3 --psm 6"

/-- `DEFAULT_TESSERACT_CONFIG = ""` (src/app.py line 19). -/
def DEFAULT_TESSERACT_CONFIG : String := ""

/-- `get_tesseract_config` (src/app.py lines 57-58). -/
def get_tesseract_config (fast_mode : Bool) : String :=
  if fast_mode then FAST_TESSERACT_CONFIG else DEFAULT_TESSERACT_CONFIG

/-- The expression `effective_dpi = min(dpi, FAST_MODE_MAX_DPI) if fast_mode
else dpi` from `main` (src/app.py line 213). -/
def effective_dpi (fast_mode : Bool) (dpi : Nat) : Nat :=
  if fast_mode then min dpi FAST_MODE_MAX_DPI else dpi

/-- The seen-set dedupe loop of `iter_pdf_images` (src/app.py lines 87-92):
keeps the first occurrence of each page, in input order.  `seen` is the set
of pages already appended. -/
def dedupeGo (seen : List Nat) : List Nat → List Nat
  | [] => []
  | page :: rest =>
    if page ∈ seen then dedupeGo seen rest
    else page :: dedupeGo (page :: seen) rest

/-- `unique_pages` as computed by `iter_pdf_images` (src/app.py lines 87-92). -/
def unique_pages (pages : List Nat) : List Nat :=
  dedupeGo [] pages

/-- The loop body of the inner generator `contiguous_chunks`
(src/app.py lines 97-105): `chunk` is the current open chunk (always
non-empty), the list argument is the remaining input.  A page joins the
open chunk iff it equals `chunk[-1] + 1` and the chunk is below
`MAX_PAGES_PER_CHUNK`. -/
def contiguousChunksGo (chunk : List Nat) : List Nat → List (List Nat)
  | [] => [chunk]
  | number :: rest =>
    if number = chunk.getLastD 0 + 1 ∧ chunk.length < MAX_PAGES_PER_CHUNK then
      contiguousChunksGo (chunk ++ [number]) rest
    else
      chunk :: contiguousChunksGo [number] rest

/-- `contiguous_chunks` (src/app.py lines 97-105).  The source accesses
`numbers[0]` unconditionally; its callers only invoke it with a non-empty
list (the guards at lines 84 and 94), so the `[]` branch here is
unreachable in the translated program. -/
def contiguous_chunks (numbers : List Nat) : List (List Nat) :=
  match numbers with
  | [] => []
  | n :: rest => contiguousChunksGo [n] rest

/-- `ordered = sorted(unique_pages)` (src/app.py line 107).  Python `sorted`
is modelled by insertion sort, which agrees with it on lists of naturals. -/
def ordered_pages (pages : List Nat) : List Nat :=
  List.insertionSort (· ≤ ·) (unique_pages pages)

/-- `sorted(set(selected_pages))` from `main` (src/app.py line 244):
the ascending enumeration of the distinct values of the input. -/
def normalize_main (pages : List Nat) : List Nat :=
  List.insertionSort (· ≤ ·) pages.dedup

/-- One `convert_from_bytes(file_bytes, dpi=dpi, first_page=first,
last_page=last, ...)` call (src/app.py lines 113-120), identified by its
page range. -/
structure ConvertCall where
  first : Nat
  last : Nat
  deriving DecidableEq

/-- The per-chunk yield loop of `iter_pdf_images` (src/app.py lines
121-122): `for offset, page_number in enumerate(chunk): yield page_number,
chunk_images[offset]`.  `chunk_images[offset]` is modelled by `List.getD`
with the `Inhabited` default (claim C10 shows the access is in bounds
whenever the backend returns one image per requested page). -/
def pairsOfChunk {Img : Type} [Inhabited Img] (chunk : List Nat)
    (chunk_images : List Img) : List (Nat × Img) :=
  chunk.enum.map (fun op => (op.2, chunk_images.getD op.1 default))

/-- `iter_pdf_images` (src/app.py lines 83-123), for a rasterization
backend `convert` that maps a `(first, last)` page range to the list of
images the backend returns for it.  The result pairs the list of
rasterization calls made with the list of `(page_number, image)` pairs the
generator yields.  This total-`convert` model covers the backend-success
behaviour; `ocr_pdf_pages_fallible` below additionally represents the
backend's error path. -/
def iter_pdf_images {Img : Type} [Inhabited Img]
    (convert : Nat → Nat → List Img) (pages : List Nat) :
    List ConvertCall × List (Nat × Img) :=
  if pages = [] then ([], [])
  else if unique_pages pages = [] then ([], [])
  else
    let chunks := contiguous_chunks (ordered_pages pages)
    (chunks.map (fun chunk => ⟨chunk.headI, chunk.getLastD 0⟩),
     chunks.flatMap (fun chunk =>
       pairsOfChunk chunk (convert chunk.headI (chunk.getLastD 0))))

/-- The distinct failure modes of a `pytesseract` call, as `main`
distinguishes them (src/app.py lines 292-300): `TesseractNotFoundError`,
`TesseractError`, and any other exception. -/
inductive OcrFailure where
  | notFound
  | engine (msg : String)
  | unexpected (msg : String)
  deriving DecidableEq

/-- Observable backend events of the OCR loops: an OCR-engine call on an
image, a `close()` call on an image, and a failure raised by `close()`. -/
inductive Event (Img : Type) where
  | ocrCall (img : Img)
  | closeCall (img : Img)
  | closeFailed (img : Img)
  deriving DecidableEq

/-- The `try: image.close() except Exception: pass` block
(src/app.py lines 133-136 and 147-150): `close()` is always called;
if it raises (`closeFails img`), the exception is swallowed and only the
trace records it. -/
def closeEvents {Img : Type} (closeFails : Img → Bool) (img : Img) :
    List (Event Img) :=
  if closeFails img then [Event.closeCall img, Event.closeFailed img]
  else [Event.closeCall img]

/-- The loop of `ocr_pdf_pages` (src/app.py lines 127-138) over the pairs
yielded by `iter_pdf_images`.  For each pair: the OCR engine is called;
the `finally` block closes the image whether OCR succeeded or raised; a
raised OCR error then propagates, abandoning the rest of the (lazy)
iteration, so no partial result list is returned. -/
def ocrPagesGo {Img : Type} (ocr : Img → Except OcrFailure String)
    (closeFails : Img → Bool) :
    List (Nat × Img) → List (Event Img) × Except OcrFailure (List (Nat × String))
  | [] => ([], Except.ok [])
  | (page_number, image) :: rest =>
    match ocr image with
    | Except.error e =>
      (Event.ocrCall image :: closeEvents closeFails image, Except.error e)
    | Except.ok text =>
      let t := ocrPagesGo ocr closeFails rest
      (Event.ocrCall image :: closeEvents closeFails image ++ t.1,
       t.2.map (fun results => (page_number, text) :: results))

/-- `ocr_pdf_pages` (src/app.py lines 126-138), returning the event trace
together with either the full result list or the first propagated error. -/
def ocr_pdf_pages {Img : Type} [Inhabited Img]
    (convert : Nat → Nat → List Img) (ocr : Img → Except OcrFailure String)
    (closeFails : Img → Bool) (pages : List Nat) :
    List (Event Img) × Except OcrFailure (List (Nat × String)) :=
  ocrPagesGo ocr closeFails (iter_pdf_images convert pages).2

/-- The loop of `build_searchable_pdf` (src/app.py lines 142-152):
identical control flow to `ocr_pdf_pages`, but the engine produces a
single-page PDF fragment per image, appended to the writer in iteration
order. -/
def buildPdfGo {Img Frag : Type} (ocrPdf : Img → Except OcrFailure Frag)
    (closeFails : Img → Bool) :
    List (Nat × Img) → List (Event Img) × Except OcrFailure (List Frag)
  | [] => ([], Except.ok [])
  | (_, image) :: rest =>
    match ocrPdf image with
    | Except.error e =>
      (Event.ocrCall image :: closeEvents closeFails image, Except.error e)
    | Except.ok frag =>
      let t := buildPdfGo ocrPdf closeFails rest
      (Event.ocrCall image :: closeEvents closeFails image ++ t.1,
       t.2.map (fun frags => frag :: frags))

/-- `build_searchable_pdf` (src/app.py lines 141-156): the ordered list of
single-page fragments written to the output document, or the first
propagated error. -/
def build_searchable_pdf {Img Frag : Type} [Inhabited Img]
    (convert : Nat → Nat → List Img) (ocrPdf : Img → Except OcrFailure Frag)
    (closeFails : Img → Bool) (pages : List Nat) :
    List (Event Img) × Except OcrFailure (List Frag) :=
  buildPdfGo ocrPdf closeFails (iter_pdf_images convert pages).2

/-- What the `run_ocr` branch of `main` shows the user
(src/app.py lines 283-305). -/
inductive Outcome where
  | shown (results : List (Nat × String))
  | warnedEmpty
  | configError
  | engineError (msg : String)
  | genericError (msg : String)
  deriving DecidableEq

/-- The `run_ocr` branch of `main` (src/app.py lines 244 and 283-305):
the selection is normalized with `sorted(set(...))`, `ocr_pdf_pages` is
invoked on it, each exception class is converted to its error message with
an early return (showing none of the per-page results), and on success the
results are displayed (or an empty-result warning is shown). -/
def run_ocr_main {Img : Type} [Inhabited Img]
    (convert : Nat → Nat → List Img) (ocr : Img → Except OcrFailure String)
    (closeFails : Img → Bool) (selected_pages : List Nat) : Outcome :=
  match (ocr_pdf_pages convert ocr closeFails (normalize_main selected_pages)).2 with
  | Except.error OcrFailure.notFound => Outcome.configError
  | Except.error (OcrFailure.engine m) => Outcome.engineError m
  | Except.error (OcrFailure.unexpected m) => Outcome.genericError m
  | Except.ok results =>
    if results.isEmpty then Outcome.warnedEmpty else Outcome.shown results

/-- A failure aborting a whole batch invocation: either the rasterization
backend raised (the `convert_from_bytes` call at src/app.py line 113 —
a `pdf2image` exception, carried here as its message), or the OCR engine
raised on some page.  Both propagate through the lazy generator to the
operation boundary in `main`. -/
inductive BatchFailure where
  | raster (msg : String)
  | engine (e : OcrFailure)
  deriving DecidableEq

/-- The chunk loop of `iter_pdf_images` (src/app.py lines 109-123) fused
with the consuming loop of `ocr_pdf_pages` (lines 127-138) — which is how
the lazy generator actually runs — with the rasterization backend's error
path represented: `convert` returns either the chunk's image list or the
exception the backend raises, which propagates immediately (later chunks
are never converted, and the per-page results of earlier chunks, already
OCR'd and closed, are discarded with the aborted call).  When `convert`
never fails this agrees with `ocrPagesGo` over `iter_pdf_images` (theorem
`ocr_pdf_pages_fallible_refines`). -/
def ocrChunksGo {Img : Type} [Inhabited Img]
    (convert : Nat → Nat → Except String (List Img))
    (ocr : Img → Except OcrFailure String) (closeFails : Img → Bool) :
    List (List Nat) →
      List (Event Img) × Except BatchFailure (List (Nat × String))
  | [] => ([], Except.ok [])
  | chunk :: chunks =>
    match convert chunk.headI (chunk.getLastD 0) with
    | Except.error msg => ([], Except.error (BatchFailure.raster msg))
    | Except.ok chunk_images =>
      let s := ocrPagesGo ocr closeFails (pairsOfChunk chunk chunk_images)
      match s.2 with
      | Except.error e => (s.1, Except.error (BatchFailure.engine e))
      | Except.ok results =>
        let t := ocrChunksGo convert ocr closeFails chunks
        (s.1 ++ t.1, t.2.map (fun more => results ++ more))

/-- `ocr_pdf_pages` (src/app.py lines 126-138) over a fallible
rasterization backend: the same guards and chunk plan as
`iter_pdf_images`, driving `ocrChunksGo`. -/
def ocr_pdf_pages_fallible {Img : Type} [Inhabited Img]
    (convert : Nat → Nat → Except String (List Img))
    (ocr : Img → Except OcrFailure String) (closeFails : Img → Bool)
    (pages : List Nat) :
    List (Event Img) × Except BatchFailure (List (Nat × String)) :=
  if pages = [] then ([], Except.ok [])
  else if unique_pages pages = [] then ([], Except.ok [])
  else ocrChunksGo convert ocr closeFails
    (contiguous_chunks (ordered_pages pages))

/-- The chunk loop of `iter_pdf_images` fused with the consuming loop of
`build_searchable_pdf` (src/app.py lines 142-152), with the rasterization
backend's error path represented; same control flow as `ocrChunksGo`. -/
def buildChunksGo {Img Frag : Type} [Inhabited Img]
    (convert : Nat → Nat → Except String (List Img))
    (ocrPdf : Img → Except OcrFailure Frag) (closeFails : Img → Bool) :
    List (List Nat) → List (Event Img) × Except BatchFailure (List Frag)
  | [] => ([], Except.ok [])
  | chunk :: chunks =>
    match convert chunk.headI (chunk.getLastD 0) with
    | Except.error msg => ([], Except.error (BatchFailure.raster msg))
    | Except.ok chunk_images =>
      let s := buildPdfGo ocrPdf closeFails (pairsOfChunk chunk chunk_images)
      match s.2 with
      | Except.error e => (s.1, Except.error (BatchFailure.engine e))
      | Except.ok frags =>
        let t := buildChunksGo convert ocrPdf closeFails chunks
        (s.1 ++ t.1, t.2.map (fun more => frags ++ more))

/-- `build_searchable_pdf` (src/app.py lines 141-156) over a fallible
rasterization backend. -/
def build_searchable_pdf_fallible {Img Frag : Type} [Inhabited Img]
    (convert : Nat → Nat → Except String (List Img))
    (ocrPdf : Img → Except OcrFailure Frag) (closeFails : Img → Bool)
    (pages : List Nat) :
    List (Event Img) × Except BatchFailure (List Frag) :=
  if pages = [] then ([], Except.ok [])
  else if unique_pages pages = [] then ([], Except.ok [])
  else buildChunksGo convert ocrPdf closeFails
    (contiguous_chunks (ordered_pages pages))

/-- The `run_ocr` branch of `main` (src/app.py lines 283-305) over the
fallible pipeline.  A backend (`pdf2image`) exception is neither a
`TesseractNotFoundError` nor a `TesseractError`, so it is caught by the
generic `except Exception` handler at line 298 and surfaced generically;
every handler returns before any result is displayed. -/
def run_ocr_main_fallible {Img : Type} [Inhabited Img]
    (convert : Nat → Nat → Except String (List Img))
    (ocr : Img → Except OcrFailure String) (closeFails : Img → Bool)
    (selected_pages : List Nat) : Outcome :=
  match (ocr_pdf_pages_fallible convert ocr closeFails
      (normalize_main selected_pages)).2 with
  | Except.error (BatchFailure.engine OcrFailure.notFound) =>
      Outcome.configError
  | Except.error (BatchFailure.engine (OcrFailure.engine m)) =>
      Outcome.engineError m
  | Except.error (BatchFailure.engine (OcrFailure.unexpected m)) =>
      Outcome.genericError m
  | Except.error (BatchFailure.raster m) => Outcome.genericError m
  | Except.ok results =>
    if results.isEmpty then Outcome.warnedEmpty else Outcome.shown results

/-- What the `download_ocr_pdf` branch of `main` (src/app.py lines
258-281) produces: either the pending download artifact built from the
generated document, or one of the three error messages with an early
return (no artifact is stored). -/
inductive DownloadOutcome (Frag : Type) where
  | artifact (frags : List Frag)
  | configError
  | engineError (msg : String)
  | genericError (msg : String)
  deriving DecidableEq

/-- The `download_ocr_pdf` branch of `main` (src/app.py lines 244 and
258-281): the selection is normalized with `sorted(set(...))`,
`build_searchable_pdf` is invoked on it, each exception class is converted
to its error message with an early return (storing no download), and on
success the serialized document becomes the pending download. -/
def run_download_main {Img Frag : Type} [Inhabited Img]
    (convert : Nat → Nat → Except String (List Img))
    (ocrPdf : Img → Except OcrFailure Frag) (closeFails : Img → Bool)
    (selected_pages : List Nat) : DownloadOutcome Frag :=
  match (build_searchable_pdf_fallible convert ocrPdf closeFails
      (normalize_main selected_pages)).2 with
  | Except.error (BatchFailure.engine OcrFailure.notFound) =>
      DownloadOutcome.configError
  | Except.error (BatchFailure.engine (OcrFailure.engine m)) =>
      DownloadOutcome.engineError m
  | Except.error (BatchFailure.engine (OcrFailure.unexpected m)) =>
      DownloadOutcome.genericError m
  | Except.error (BatchFailure.raster m) => DownloadOutcome.genericError m
  | Except.ok frags => DownloadOutcome.artifact frags

/-! Helper lemmas about `getLastD`. -/

theorem getLastD_default_irrel (l : List Nat) (h : l ≠ []) (d1 d2 : Nat) :
    l.getLastD d1 = l.getLastD d2 := by
  rw [List.getLastD_eq_getLast?, List.getLastD_eq_getLast?]
  cases hl : l.getLast? with
  | none => exact absurd (List.getLast?_eq_none_iff.mp hl) h
  | some x => rfl

theorem getLastD_mem (l : List Nat) (d : Nat) (h : l ≠ []) : l.getLastD d ∈ l := by
  induction l generalizing d with
  | nil => exact absurd rfl h
  | cons a t ih =>
    rw [List.getLastD_cons]
    cases t with
    | nil => simp [List.getLastD]
    | cons b t2 => exact List.mem_cons_of_mem a (ih a (by simp))

/-! Invariants of the chunking scan. -/

theorem contiguousChunksGo_flatten (rest : List Nat) : ∀ chunk : List Nat,
    (contiguousChunksGo chunk rest).flatten = chunk ++ rest := by
  induction rest with
  | nil => intro chunk; simp [contiguousChunksGo]
  | cons n rest ih =>
    intro chunk
    simp only [contiguousChunksGo]
    split
    · rw [ih (chunk ++ [n])]; simp
    · simp only [List.flatten_cons, ih [n]]; simp

theorem contiguousChunksGo_length (rest : List Nat) : ∀ chunk : List Nat,
    chunk.length ≤ MAX_PAGES_PER_CHUNK →
    ∀ c ∈ contiguousChunksGo chunk rest, c.length ≤ MAX_PAGES_PER_CHUNK := by
  induction rest with
  | nil =>
    intro chunk h c hc
    simp only [contiguousChunksGo, List.mem_singleton] at hc
    exact hc ▸ h
  | cons n rest ih =>
    intro chunk h c hc
    simp only [contiguousChunksGo] at hc
    split at hc
    case isTrue hcond =>
      refine ih (chunk ++ [n]) ?_ c hc
      have : chunk.length + 1 ≤ MAX_PAGES_PER_CHUNK := hcond.2
      simpa using this
    case isFalse hcond =>
      rcases List.mem_cons.mp hc with rfl | hc
      · exact h
      · exact ih [n] (by simp [MAX_PAGES_PER_CHUNK]) c hc

theorem contiguousChunksGo_ne_nil (rest : List Nat) : ∀ chunk : List Nat,
    chunk ≠ [] → ∀ c ∈ contiguousChunksGo chunk rest, c ≠ [] := by
  induction rest with
  | nil =>
    intro chunk h c hc
    simp only [contiguousChunksGo, List.mem_singleton] at hc
    exact hc ▸ h
  | cons n rest ih =>
    intro chunk h c hc
    simp only [contiguousChunksGo] at hc
    split at hc
    · exact ih (chunk ++ [n]) (by simp) c hc
    · rcases List.mem_cons.mp hc with rfl | hc
      · exact h
      · exact ih [n] (by simp) c hc

theorem contiguousChunksGo_consecutive (rest : List Nat) : ∀ chunk : List Nat,
    chunk ≠ [] → List.Chain' (fun a b => b = a + 1) chunk →
    ∀ c ∈ contiguousChunksGo chunk rest,
      List.Chain' (fun a b => b = a + 1) c := by
  induction rest with
  | nil =>
    intro chunk _ hch c hc
    simp only [contiguousChunksGo, List.mem_singleton] at hc
    exact hc ▸ hch
  | cons n rest ih =>
    intro chunk hne hch c hc
    simp only [contiguousChunksGo] at hc
    split at hc
    case isTrue hcond =>
      refine ih (chunk ++ [n]) (by simp) ?_ c hc
      rw [List.chain'_append]
      refine ⟨hch, List.chain'_singleton n, ?_⟩
      intro x hx y hy
      simp only [List.head?_cons, Option.mem_def, Option.some.injEq] at hy
      have hlast : chunk.getLast? = some (chunk.getLastD 0) := by
        rw [List.getLastD_eq_getLast?]
        cases hl : chunk.getLast? with
        | none => exact absurd (List.getLast?_eq_none_iff.mp hl) hne
        | some z => rfl
      rw [hlast] at hx
      simp only [Option.mem_def, Option.some.injEq] at hx
      subst hx; subst hy
      exact hcond.1
    case isFalse hcond =>
      rcases List.mem_cons.mp hc with rfl | hc
      · exact hch
      · exact ih [n] (by simp) (List.chain'_singleton n) c hc

theorem contiguousChunksGo_headI (rest : List Nat) : ∀ chunk : List Nat,
    ∃ t, (contiguousChunksGo chunk rest).headI = chunk ++ t := by
  induction rest with
  | nil => intro chunk; exact ⟨[], by simp [contiguousChunksGo]⟩
  | cons n rest ih =>
    intro chunk
    simp only [contiguousChunksGo]
    split
    · obtain ⟨t, ht⟩ := ih (chunk ++ [n])
      exact ⟨n :: t, by simp [ht]⟩
    · exact ⟨[], by simp⟩

theorem contiguous_chunks_flatten (numbers : List Nat) :
    (contiguous_chunks numbers).flatten = numbers := by
  cases numbers with
  | nil => rfl
  | cons n rest =>
    simpa using contiguousChunksGo_flatten rest [n]

theorem contiguous_chunks_length (numbers : List Nat) :
    ∀ c ∈ contiguous_chunks numbers, c.length ≤ MAX_PAGES_PER_CHUNK := by
  cases numbers with
  | nil => intro c hc; simp [contiguous_chunks] at hc
  | cons n rest =>
    exact contiguousChunksGo_length rest [n] (by simp [MAX_PAGES_PER_CHUNK])

theorem contiguous_chunks_ne_nil (numbers : List Nat) :
    ∀ c ∈ contiguous_chunks numbers, c ≠ [] := by
  cases numbers with
  | nil => intro c hc; simp [contiguous_chunks] at hc
  | cons n rest => exact contiguousChunksGo_ne_nil rest [n] (by simp)

theorem contiguous_chunks_consecutive (numbers : List Nat) :
    ∀ c ∈ contiguous_chunks numbers,
      List.Chain' (fun a b => b = a + 1) c := by
  cases numbers with
  | nil => intro c hc; simp [contiguous_chunks] at hc
  | cons n rest =>
    exact contiguousChunksGo_consecutive rest [n] (by simp)
      (List.chain'_singleton n)

/-- C1: for every strictly increasing sequence of unique page indices, the
chunks produced by `contiguous_chunks` concatenate back to the input, every
chunk has length at most `MAX_PAGES_PER_CHUNK` (8), and within every chunk
consecutive elements differ by exactly 1. -/
theorem contiguous_chunks_spec (numbers : List Nat)
    (_h : List.Sorted (· < ·) numbers) :
    (contiguous_chunks numbers).flatten = numbers ∧
    (∀ c ∈ contiguous_chunks numbers, c.length ≤ MAX_PAGES_PER_CHUNK) ∧
    (∀ c ∈ contiguous_chunks numbers,
      List.Chain' (fun a b => b = a + 1) c) :=
  ⟨contiguous_chunks_flatten numbers, contiguous_chunks_length numbers,
   contiguous_chunks_consecutive numbers⟩

/-- Witness for C1 at the concrete input `[1, 2, 3, 10]`. -/
theorem contiguous_chunks_spec_witness :
    List.Sorted (· < ·) ([1, 2, 3, 10] : List Nat) ∧
    ((contiguous_chunks [1, 2, 3, 10]).flatten = [1, 2, 3, 10] ∧
     (∀ c ∈ contiguous_chunks [1, 2, 3, 10],
        c.length ≤ MAX_PAGES_PER_CHUNK) ∧
     (∀ c ∈ contiguous_chunks [1, 2, 3, 10],
        List.Chain' (fun a b => b = a + 1) c)) :=
  ⟨by decide, contiguous_chunks_spec [1, 2, 3, 10] (by decide)⟩

/-- C2: in the scan state of `contiguous_chunks` (current open chunk
`chunk`, next input page `n`), `n` lands in the same chunk as the previous
page (the first emitted chunk extending `chunk`) iff `n = chunk[-1] + 1`
and the open chunk has fewer than `MAX_PAGES_PER_CHUNK` elements; and the
input `1..20` yields exactly the chunks `[1..8], [9..16], [17..20]`. -/
theorem chunk_merge_iff :
    (∀ (chunk : List Nat) (n : Nat) (rest : List Nat), chunk ≠ [] →
        (∀ m ∈ chunk, m < n) →
        ((chunk.getLastD 0 ∈ (contiguousChunksGo chunk (n :: rest)).headI ∧
          n ∈ (contiguousChunksGo chunk (n :: rest)).headI) ↔
          (n = chunk.getLastD 0 + 1 ∧
           chunk.length < MAX_PAGES_PER_CHUNK))) ∧
    contiguous_chunks (List.range' 1 20) =
      [List.range' 1 8, List.range' 9 8, List.range' 17 4] := by
  constructor
  · intro chunk n rest hne hlt
    simp only [contiguousChunksGo]
    split
    case isTrue hcond =>
      refine ⟨fun _ => hcond, fun _ => ?_⟩
      obtain ⟨t, ht⟩ := contiguousChunksGo_headI rest (chunk ++ [n])
      rw [ht]
      constructor
      · exact List.mem_append_left _
          (List.mem_append_left _ (getLastD_mem chunk 0 hne))
      · exact List.mem_append_left _ (List.mem_append_right _ (by simp))
    case isFalse hcond =>
      simp only [List.headI_cons]
      exact ⟨fun ⟨_, hn⟩ => absurd (hlt n hn) (lt_irrefl n),
             fun hc => absurd hc hcond⟩
  · decide

/-- Witness for C2 at the scan state with open chunk `[1]` and next page
`2`: the pages merge, and both hypotheses hold at this input. -/
theorem chunk_merge_iff_witness :
    (([1] : List Nat) ≠ [] ∧ (∀ m ∈ ([1] : List Nat), m < 2)) ∧
    ((([1] : List Nat).getLastD 0 ∈ (contiguousChunksGo [1] [2]).headI ∧
      2 ∈ (contiguousChunksGo [1] [2]).headI) ↔
      (2 = ([1] : List Nat).getLastD 0 + 1 ∧
       ([1] : List Nat).length < MAX_PAGES_PER_CHUNK)) :=
  ⟨⟨by decide, by decide⟩, chunk_merge_iff.1 [1] 2 [] (by decide) (by decide)⟩

/-! Lemmas about the dedupe loop and the two normalization steps. -/

theorem mem_dedupeGo (l : List Nat) : ∀ (seen : List Nat) (a : Nat),
    a ∈ dedupeGo seen l ↔ a ∈ l ∧ a ∉ seen := by
  induction l with
  | nil => intro seen a; simp [dedupeGo]
  | cons p rest ih =>
    intro seen a
    simp only [dedupeGo]
    split
    case isTrue hp =>
      rw [ih seen a]
      constructor
      · exact fun ⟨h1, h2⟩ => ⟨List.mem_cons_of_mem p h1, h2⟩
      · rintro ⟨h1, h2⟩
        rcases List.mem_cons.mp h1 with rfl | h1
        · exact absurd hp h2
        · exact ⟨h1, h2⟩
    case isFalse hp =>
      constructor
      · intro hmem
        rcases List.mem_cons.mp hmem with rfl | hmem
        · exact ⟨List.mem_cons_self a rest, hp⟩
        · obtain ⟨h1, h2⟩ := (ih (p :: seen) a).mp hmem
          exact ⟨List.mem_cons_of_mem p h1,
                 fun hs => h2 (List.mem_cons_of_mem p hs)⟩
      · rintro ⟨h1, h2⟩
        rcases List.mem_cons.mp h1 with rfl | h1
        · exact List.mem_cons_self a _
        · by_cases hap : a = p
          · exact hap ▸ List.mem_cons_self p _
          · refine List.mem_cons_of_mem p ((ih (p :: seen) a).mpr ⟨h1, ?_⟩)
            intro hmem
            rcases List.mem_cons.mp hmem with h | h
            · exact hap h
            · exact h2 h

theorem nodup_dedupeGo (l : List Nat) : ∀ seen : List Nat,
    (dedupeGo seen l).Nodup := by
  induction l with
  | nil => intro seen; simp [dedupeGo]
  | cons p rest ih =>
    intro seen
    simp only [dedupeGo]
    split
    · exact ih seen
    · refine List.nodup_cons.mpr ⟨?_, ih (p :: seen)⟩
      intro hmem
      exact ((mem_dedupeGo rest (p :: seen) p).mp hmem).2
        (List.mem_cons_self p seen)

theorem mem_unique_pages (pages : List Nat) (a : Nat) :
    a ∈ unique_pages pages ↔ a ∈ pages := by
  rw [unique_pages, mem_dedupeGo]
  simp

theorem nodup_unique_pages (pages : List Nat) : (unique_pages pages).Nodup :=
  nodup_dedupeGo pages []

theorem unique_pages_ne_nil (pages : List Nat) (h : pages ≠ []) :
    unique_pages pages ≠ [] := by
  cases pages with
  | nil => exact absurd rfl h
  | cons p rest =>
    intro hnil
    have : p ∈ unique_pages (p :: rest) :=
      (mem_unique_pages (p :: rest) p).mpr (List.mem_cons_self p rest)
    rw [hnil] at this
    exact List.not_mem_nil p this

theorem nodup_ordered_pages (pages : List Nat) :
    (ordered_pages pages).Nodup :=
  (List.perm_insertionSort (· ≤ ·) (unique_pages pages)).nodup_iff.mpr
    (nodup_unique_pages pages)

theorem ordered_pages_sorted (pages : List Nat) :
    List.Sorted (· < ·) (ordered_pages pages) :=
  (List.sorted_insertionSort (· ≤ ·) (unique_pages pages)).lt_of_le
    (nodup_ordered_pages pages)

theorem mem_ordered_pages (pages : List Nat) (a : Nat) :
    a ∈ ordered_pages pages ↔ a ∈ pages := by
  rw [ordered_pages,
      (List.perm_insertionSort (· ≤ ·) (unique_pages pages)).mem_iff]
  exact mem_unique_pages pages a

theorem ordered_pages_ne_nil (pages : List Nat) (h : pages ≠ []) :
    ordered_pages pages ≠ [] := by
  cases pages with
  | nil => exact absurd rfl h
  | cons p rest =>
    intro hnil
    have : p ∈ ordered_pages (p :: rest) :=
      (mem_ordered_pages (p :: rest) p).mpr (List.mem_cons_self p rest)
    rw [hnil] at this
    exact List.not_mem_nil p this

theorem nodup_normalize_main (pages : List Nat) :
    (normalize_main pages).Nodup :=
  (List.perm_insertionSort (· ≤ ·) pages.dedup).nodup_iff.mpr
    (List.nodup_dedup pages)

theorem normalize_main_sorted (pages : List Nat) :
    List.Sorted (· < ·) (normalize_main pages) :=
  (List.sorted_insertionSort (· ≤ ·) pages.dedup).lt_of_le
    (nodup_normalize_main pages)

theorem mem_normalize_main (pages : List Nat) (a : Nat) :
    a ∈ normalize_main pages ↔ a ∈ pages := by
  rw [normalize_main,
      (List.perm_insertionSort (· ≤ ·) pages.dedup).mem_iff]
  exact List.mem_dedup

/-- C4: both normalization steps of the program — `sorted(set(...))` in
`main` and the dedupe-then-sort inside `iter_pdf_images` — return a
strictly increasing sequence whose members are exactly the distinct values
of the input, and the empty input yields the empty output. -/
theorem normalization_spec (pages : List Nat) (a : Nat) :
    List.Sorted (· < ·) (normalize_main pages) ∧
    (a ∈ normalize_main pages ↔ a ∈ pages) ∧
    normalize_main [] = [] ∧
    List.Sorted (· < ·) (ordered_pages pages) ∧
    (a ∈ ordered_pages pages ↔ a ∈ pages) ∧
    ordered_pages [] = [] :=
  ⟨normalize_main_sorted pages, mem_normalize_main pages a, rfl,
   ordered_pages_sorted pages, mem_ordered_pages pages a, rfl⟩

theorem dedupeGo_of_nodup (l : List Nat) : ∀ seen : List Nat,
    l.Nodup → (∀ a ∈ l, a ∉ seen) → dedupeGo seen l = l := by
  induction l with
  | nil => intro seen _ _; rfl
  | cons p rest ih =>
    intro seen hnd hseen
    obtain ⟨hp, hrest⟩ := List.nodup_cons.mp hnd
    simp only [dedupeGo, if_neg (hseen p (List.mem_cons_self p rest))]
    refine congrArg (p :: ·) (ih (p :: seen) hrest ?_)
    intro a ha hmem
    rcases List.mem_cons.mp hmem with rfl | hmem
    · exact hp ha
    · exact hseen a (List.mem_cons_of_mem p ha) hmem

theorem unique_pages_of_nodup (l : List Nat) (h : l.Nodup) :
    unique_pages l = l :=
  dedupeGo_of_nodup l [] h (fun a _ => List.not_mem_nil a)

/-- C9: normalization is idempotent — on a strictly increasing
duplicate-free sequence, `sorted(set(...))` (and the dedupe-then-sort of
`iter_pdf_images`) returns the sequence unchanged. -/
theorem normalize_idempotent (l : List Nat) (h : List.Sorted (· < ·) l) :
    normalize_main l = l ∧ ordered_pages l = l := by
  have hnd : l.Nodup := h.nodup
  constructor
  · rw [normalize_main, hnd.dedup]
    exact h.le_of_lt.insertionSort_eq
  · rw [ordered_pages, unique_pages_of_nodup l hnd]
    exact h.le_of_lt.insertionSort_eq

/-- Witness for C9 at the already-normalized input `[1, 3, 5]`. -/
theorem normalize_idempotent_witness :
    List.Sorted (· < ·) ([1, 3, 5] : List Nat) ∧
    (normalize_main [1, 3, 5] = [1, 3, 5] ∧
     ordered_pages [1, 3, 5] = [1, 3, 5]) :=
  ⟨by decide, normalize_idempotent [1, 3, 5] (by decide)⟩

/-! Lemmas about the rasterization iterator and the two OCR loops. -/

theorem pairsOfChunk_fst {Img : Type} [Inhabited Img] (chunk : List Nat)
    (imgs : List Img) :
    (pairsOfChunk chunk imgs).map Prod.fst = chunk := by
  rw [pairsOfChunk, List.map_map]
  have hfst : (Prod.fst ∘ fun op : Nat × Nat =>
      (op.2, imgs.getD op.1 default)) = Prod.snd := rfl
  rw [hfst, List.enum_map_snd]

theorem iter_pdf_images_fst {Img : Type} [Inhabited Img]
    (convert : Nat → Nat → List Img) (pages : List Nat) :
    (iter_pdf_images convert pages).2.map Prod.fst = ordered_pages pages := by
  by_cases hp : pages = []
  · subst hp; rfl
  · have hu : unique_pages pages ≠ [] := unique_pages_ne_nil pages hp
    simp only [iter_pdf_images, if_neg hp, if_neg hu]
    rw [List.map_flatMap]
    simp only [pairsOfChunk_fst]
    have hid : (contiguous_chunks (ordered_pages pages)).flatMap
        (fun chunk => chunk) =
        (contiguous_chunks (ordered_pages pages)).flatten :=
      List.flatMap_id _
    rw [hid, contiguous_chunks_flatten]

theorem iter_pdf_images_ne_nil {Img : Type} [Inhabited Img]
    (convert : Nat → Nat → List Img) (pages : List Nat) (h : pages ≠ []) :
    (iter_pdf_images convert pages).2 ≠ [] := by
  intro hnil
  have := iter_pdf_images_fst convert pages
  rw [hnil] at this
  exact ordered_pages_ne_nil pages h this.symm

theorem ocrPagesGo_all_ok {Img : Type} (textOf : Img → String)
    (closeFails : Img → Bool) (pairs : List (Nat × Img)) :
    (ocrPagesGo (fun i => Except.ok (textOf i)) closeFails pairs).2 =
      Except.ok (pairs.map (fun pi => (pi.1, textOf pi.2))) := by
  induction pairs with
  | nil => rfl
  | cons pi rest ih =>
    obtain ⟨p, image⟩ := pi
    simp only [ocrPagesGo, ih, Except.map, List.map_cons]

theorem buildPdfGo_all_ok {Img Frag : Type} (fragOf : Img → Frag)
    (closeFails : Img → Bool) (pairs : List (Nat × Img)) :
    (buildPdfGo (fun i => Except.ok (fragOf i)) closeFails pairs).2 =
      Except.ok (pairs.map (fun pi => fragOf pi.2)) := by
  induction pairs with
  | nil => rfl
  | cons pi rest ih =>
    obtain ⟨p, image⟩ := pi
    simp only [buildPdfGo, ih, Except.map, List.map_cons]

/-- C3: for every page selection (unsorted, with duplicates allowed) and
every rasterizer/OCR behaviour returning one result per page, the pairs
yielded by `iter_pdf_images` — and hence the result list of
`ocr_pdf_pages` and the fragment order of `build_searchable_pdf` — follow
the normalized strictly ascending page order, not the caller's selection
order; in particular the selection `[2, 1]` is processed in the order
`[1, 2]`. -/
theorem pipeline_ascending_order {Img Frag : Type} [Inhabited Img]
    (convert : Nat → Nat → List Img) (textOf : Img → String)
    (fragOf : Img → Frag) (closeFails : Img → Bool) (pages : List Nat) :
    (iter_pdf_images convert pages).2.map Prod.fst = ordered_pages pages ∧
    List.Sorted (· < ·) ((iter_pdf_images convert pages).2.map Prod.fst) ∧
    (ocr_pdf_pages convert (fun i => Except.ok (textOf i)) closeFails
        pages).2 =
      Except.ok ((iter_pdf_images convert pages).2.map
        (fun pi => (pi.1, textOf pi.2))) ∧
    (build_searchable_pdf convert (fun i => Except.ok (fragOf i)) closeFails
        pages).2 =
      Except.ok ((iter_pdf_images convert pages).2.map
        (fun pi => fragOf pi.2)) ∧
    (iter_pdf_images convert [2, 1]).2.map Prod.fst = [1, 2] := by
  refine ⟨iter_pdf_images_fst convert pages, ?_, ?_, ?_, ?_⟩
  · rw [iter_pdf_images_fst convert pages]
    exact ordered_pages_sorted pages
  · exact ocrPagesGo_all_ok textOf closeFails _
  · exact buildPdfGo_all_ok fragOf closeFails _
  · rw [iter_pdf_images_fst convert [2, 1]]
    decide

/-- C7: fast mode caps the effective DPI at `min(dpi, 220)` and selects the
faster engine profile; with fast mode off, the DPI is unchanged and the
default (empty) profile is used. -/
theorem fast_mode_spec (dpi : Nat) :
    effective_dpi true dpi = min dpi FAST_MODE_MAX_DPI ∧
    effective_dpi true dpi ≤ 220 ∧
    get_tesseract_config true = "--oem 3 --psm 6" ∧
    effective_dpi false dpi = dpi ∧
    get_tesseract_config false = "" :=
  ⟨rfl, min_le_right dpi 220, rfl, rfl, rfl⟩

/-- C8: an empty page selection makes `iter_pdf_images` yield nothing and
perform no rasterization calls, and both OCR loops succeed with the empty
result and an empty backend-event trace. -/
theorem empty_selection_no_calls {Img Frag : Type} [Inhabited Img]
    (convert : Nat → Nat → List Img) (ocr : Img → Except OcrFailure String)
    (ocrPdf : Img → Except OcrFailure Frag) (closeFails : Img → Bool) :
    iter_pdf_images convert ([] : List Nat) = ([], []) ∧
    ocr_pdf_pages convert ocr closeFails [] = ([], Except.ok []) ∧
    build_searchable_pdf convert ocrPdf closeFails [] =
      ([], Except.ok []) :=
  ⟨rfl, rfl, rfl⟩

/-! Lemmas about the close-trace and error propagation of the OCR loops. -/

theorem closeCall_mem_closeEvents {Img : Type} (closeFails : Img → Bool)
    (img : Img) : Event.closeCall img ∈ closeEvents closeFails img := by
  unfold closeEvents
  split <;> simp

theorem ocrCall_not_mem_closeEvents {Img : Type} (closeFails : Img → Bool)
    (i img : Img) (h : Event.ocrCall img ∈ closeEvents closeFails i) :
    False := by
  unfold closeEvents at h
  split at h <;> simp at h

theorem ocrPagesGo_close {Img : Type} (ocr : Img → Except OcrFailure String)
    (closeFails : Img → Bool) (pairs : List (Nat × Img)) :
    ∀ img, Event.ocrCall img ∈ (ocrPagesGo ocr closeFails pairs).1 →
      Event.closeCall img ∈ (ocrPagesGo ocr closeFails pairs).1 := by
  induction pairs with
  | nil => intro img h; simp [ocrPagesGo] at h
  | cons pi rest ih =>
    obtain ⟨p, image⟩ := pi
    intro img
    simp only [ocrPagesGo]
    cases hocr : ocr image with
    | error e =>
      intro h
      rcases List.mem_cons.mp h with heq | hmem
      · have himg : img = image := by injection heq
        subst himg
        exact List.mem_cons_of_mem _
          (closeCall_mem_closeEvents closeFails img)
      · exact absurd hmem
          (fun hm => ocrCall_not_mem_closeEvents closeFails image img hm)
    | ok text =>
      intro h
      rcases List.mem_cons.mp h with heq | hmem
      · have himg : img = image := by injection heq
        subst himg
        exact List.mem_cons_of_mem _ (List.mem_append_left _
          (closeCall_mem_closeEvents closeFails img))
      · rcases List.mem_append.mp hmem with hm | hm
        · exact absurd hm
            (fun hm => ocrCall_not_mem_closeEvents closeFails image img hm)
        · exact List.mem_cons_of_mem _
            (List.mem_append_right _ (ih img hm))

theorem ocrPagesGo_result_indep {Img : Type}
    (ocr : Img → Except OcrFailure String) (cf1 cf2 : Img → Bool)
    (pairs : List (Nat × Img)) :
    (ocrPagesGo ocr cf1 pairs).2 = (ocrPagesGo ocr cf2 pairs).2 := by
  induction pairs with
  | nil => rfl
  | cons pi rest ih =>
    obtain ⟨p, image⟩ := pi
    simp only [ocrPagesGo]
    cases ocr image with
    | error e => rfl
    | ok text => simp only [ih]

theorem buildPdfGo_close {Img Frag : Type}
    (ocrPdf : Img → Except OcrFailure Frag) (closeFails : Img → Bool)
    (pairs : List (Nat × Img)) :
    ∀ img, Event.ocrCall img ∈ (buildPdfGo ocrPdf closeFails pairs).1 →
      Event.closeCall img ∈ (buildPdfGo ocrPdf closeFails pairs).1 := by
  induction pairs with
  | nil => intro img h; simp [buildPdfGo] at h
  | cons pi rest ih =>
    obtain ⟨p, image⟩ := pi
    intro img
    simp only [buildPdfGo]
    cases hocr : ocrPdf image with
    | error e =>
      intro h
      rcases List.mem_cons.mp h with heq | hmem
      · have himg : img = image := by injection heq
        subst himg
        exact List.mem_cons_of_mem _
          (closeCall_mem_closeEvents closeFails img)
      · exact absurd hmem
          (fun hm => ocrCall_not_mem_closeEvents closeFails image img hm)
    | ok frag =>
      intro h
      rcases List.mem_cons.mp h with heq | hmem
      · have himg : img = image := by injection heq
        subst himg
        exact List.mem_cons_of_mem _ (List.mem_append_left _
          (closeCall_mem_closeEvents closeFails img))
      · rcases List.mem_append.mp hmem with hm | hm
        · exact absurd hm
            (fun hm => ocrCall_not_mem_closeEvents closeFails image img hm)
        · exact List.mem_cons_of_mem _
            (List.mem_append_right _ (ih img hm))

theorem buildPdfGo_result_indep {Img Frag : Type}
    (ocrPdf : Img → Except OcrFailure Frag) (cf1 cf2 : Img → Bool)
    (pairs : List (Nat × Img)) :
    (buildPdfGo ocrPdf cf1 pairs).2 = (buildPdfGo ocrPdf cf2 pairs).2 := by
  induction pairs with
  | nil => rfl
  | cons pi rest ih =>
    obtain ⟨p, image⟩ := pi
    simp only [buildPdfGo]
    cases ocrPdf image with
    | error e => rfl
    | ok frag => simp only [ih]

theorem ocrPagesGo_error_head {Img : Type}
    (ocr : Img → Except OcrFailure String) (closeFails : Img → Bool)
    (p : Nat) (image : Img) (rest : List (Nat × Img)) (e : OcrFailure)
    (h : ocr image = Except.error e) :
    (ocrPagesGo ocr closeFails ((p, image) :: rest)).2 = Except.error e := by
  simp only [ocrPagesGo, h]

theorem normalize_main_ne_nil (pages : List Nat) (h : pages ≠ []) :
    normalize_main pages ≠ [] := by
  cases pages with
  | nil => exact absurd rfl h
  | cons p rest =>
    intro hnil
    have : p ∈ normalize_main (p :: rest) :=
      (mem_normalize_main (p :: rest) p).mpr (List.mem_cons_self p rest)
    rw [hnil] at this
    exact List.not_mem_nil p this

/-! Lemmas about the fallible-rasterizer pipeline. -/

theorem contiguousChunksGo_not_nil (rest : List Nat) : ∀ chunk : List Nat,
    contiguousChunksGo chunk rest ≠ [] := by
  induction rest with
  | nil => intro chunk; simp [contiguousChunksGo]
  | cons n rest ih =>
    intro chunk
    simp only [contiguousChunksGo]
    split
    · exact ih (chunk ++ [n])
    · simp

theorem contiguous_chunks_not_nil (numbers : List Nat) (h : numbers ≠ []) :
    contiguous_chunks numbers ≠ [] := by
  cases numbers with
  | nil => exact absurd rfl h
  | cons n rest => exact contiguousChunksGo_not_nil rest [n]

theorem pairsOfChunk_ne_nil {Img : Type} [Inhabited Img] (chunk : List Nat)
    (imgs : List Img) (h : chunk ≠ []) : pairsOfChunk chunk imgs ≠ [] := by
  intro hnil
  have := pairsOfChunk_fst chunk imgs
  rw [hnil] at this
  simp only [List.map_nil] at this
  exact h this.symm

theorem buildPdfGo_error_head {Img Frag : Type}
    (ocrPdf : Img → Except OcrFailure Frag) (closeFails : Img → Bool)
    (p : Nat) (image : Img) (rest : List (Nat × Img)) (e : OcrFailure)
    (h : ocrPdf image = Except.error e) :
    (buildPdfGo ocrPdf closeFails ((p, image) :: rest)).2 =
      Except.error e := by
  simp only [buildPdfGo, h]

theorem ocrChunksGo_raster_head {Img : Type} [Inhabited Img]
    (convert : Nat → Nat → Except String (List Img))
    (ocr : Img → Except OcrFailure String) (closeFails : Img → Bool)
    (chunk : List Nat) (chunks : List (List Nat)) (msg : String)
    (h : convert chunk.headI (chunk.getLastD 0) = Except.error msg) :
    (ocrChunksGo convert ocr closeFails (chunk :: chunks)).2 =
      Except.error (BatchFailure.raster msg) := by
  simp only [ocrChunksGo, h]

theorem ocrChunksGo_engine_head {Img : Type} [Inhabited Img]
    (convert : Nat → Nat → Except String (List Img))
    (ocr : Img → Except OcrFailure String) (closeFails : Img → Bool)
    (chunk : List Nat) (chunks : List (List Nat)) (imgs : List Img)
    (e : OcrFailure)
    (hc : convert chunk.headI (chunk.getLastD 0) = Except.ok imgs)
    (he : (ocrPagesGo ocr closeFails (pairsOfChunk chunk imgs)).2 =
      Except.error e) :
    (ocrChunksGo convert ocr closeFails (chunk :: chunks)).2 =
      Except.error (BatchFailure.engine e) := by
  simp only [ocrChunksGo, hc, he]

theorem buildChunksGo_raster_head {Img Frag : Type} [Inhabited Img]
    (convert : Nat → Nat → Except String (List Img))
    (ocrPdf : Img → Except OcrFailure Frag) (closeFails : Img → Bool)
    (chunk : List Nat) (chunks : List (List Nat)) (msg : String)
    (h : convert chunk.headI (chunk.getLastD 0) = Except.error msg) :
    (buildChunksGo convert ocrPdf closeFails (chunk :: chunks)).2 =
      Except.error (BatchFailure.raster msg) := by
  simp only [buildChunksGo, h]

theorem buildChunksGo_engine_head {Img Frag : Type} [Inhabited Img]
    (convert : Nat → Nat → Except String (List Img))
    (ocrPdf : Img → Except OcrFailure Frag) (closeFails : Img → Bool)
    (chunk : List Nat) (chunks : List (List Nat)) (imgs : List Img)
    (e : OcrFailure)
    (hc : convert chunk.headI (chunk.getLastD 0) = Except.ok imgs)
    (he : (buildPdfGo ocrPdf closeFails (pairsOfChunk chunk imgs)).2 =
      Except.error e) :
    (buildChunksGo convert ocrPdf closeFails (chunk :: chunks)).2 =
      Except.error (BatchFailure.engine e) := by
  simp only [buildChunksGo, hc, he]

theorem ocrPagesGo_append {Img : Type}
    (ocr : Img → Except OcrFailure String) (closeFails : Img → Bool)
    (a b : List (Nat × Img)) :
    (ocrPagesGo ocr closeFails (a ++ b)).2 =
      match (ocrPagesGo ocr closeFails a).2 with
      | Except.error e => Except.error e
      | Except.ok r1 =>
        ((ocrPagesGo ocr closeFails b).2).map (fun r2 => r1 ++ r2) := by
  induction a with
  | nil =>
    simp only [List.nil_append, ocrPagesGo]
    cases (ocrPagesGo ocr closeFails b).2 <;> simp [Except.map]
  | cons pi a ih =>
    obtain ⟨p, image⟩ := pi
    show (ocrPagesGo ocr closeFails ((p, image) :: (a ++ b))).2 = _
    simp only [ocrPagesGo]
    cases ocr image with
    | error e => rfl
    | ok text =>
      rw [ih]
      cases (ocrPagesGo ocr closeFails a).2 with
      | error e => rfl
      | ok r1 =>
        cases (ocrPagesGo ocr closeFails b).2 <;> simp [Except.map]

theorem ocrChunksGo_refines {Img : Type} [Inhabited Img]
    (cv : Nat → Nat → List Img) (ocr : Img → Except OcrFailure String)
    (closeFails : Img → Bool) (chunks : List (List Nat)) :
    (ocrChunksGo (fun f l => Except.ok (cv f l)) ocr closeFails chunks).2 =
      ((ocrPagesGo ocr closeFails (chunks.flatMap (fun chunk =>
        pairsOfChunk chunk (cv chunk.headI (chunk.getLastD 0))))).2).mapError
          BatchFailure.engine := by
  induction chunks with
  | nil => rfl
  | cons chunk chunks ih =>
    simp only [List.flatMap_cons, ocrChunksGo,
      ocrPagesGo_append ocr closeFails]
    cases (ocrPagesGo ocr closeFails
        (pairsOfChunk chunk (cv chunk.headI (chunk.getLastD 0)))).2 with
    | error e => rfl
    | ok results =>
      simp only [ih]
      cases (ocrPagesGo ocr closeFails (chunks.flatMap (fun chunk =>
          pairsOfChunk chunk (cv chunk.headI (chunk.getLastD 0))))).2 <;>
        simp [Except.map, Except.mapError]

/-- When the rasterization backend never fails, the fallible pipeline
computes exactly what `ocr_pdf_pages` over `iter_pdf_images` computes
(the batch failure then being an engine failure). -/
theorem ocr_pdf_pages_fallible_refines {Img : Type} [Inhabited Img]
    (cv : Nat → Nat → List Img) (ocr : Img → Except OcrFailure String)
    (closeFails : Img → Bool) (pages : List Nat) :
    (ocr_pdf_pages_fallible (fun f l => Except.ok (cv f l)) ocr closeFails
        pages).2 =
      ((ocr_pdf_pages cv ocr closeFails pages).2).mapError
        BatchFailure.engine := by
  by_cases hp : pages = []
  · subst hp; rfl
  · have hu : unique_pages pages ≠ [] := unique_pages_ne_nil pages hp
    simp only [ocr_pdf_pages_fallible, ocr_pdf_pages, iter_pdf_images,
      if_neg hp, if_neg hu]
    exact ocrChunksGo_refines cv ocr closeFails _

/-- C5: batch failures are all-or-nothing per invocation.  Whenever the
pipeline propagates an error — raised by the rasterization backend or by
the OCR engine, at any point of the batch — the `run_ocr` boundary of
`main` never shows any per-page results and the download boundary never
stores an artifact; a rasterization backend that raises yields the
generic error message on both boundaries with nothing shown; and with the
engine executable unresolvable (every engine call raising the not-found
error) a non-empty selection yields the configuration-error outcome on
both boundaries, with zero pages of output shown. -/
theorem ocr_error_all_or_nothing {Img Frag : Type} [Inhabited Img]
    (convert : Nat → Nat → Except String (List Img))
    (ocr : Img → Except OcrFailure String)
    (ocrPdf : Img → Except OcrFailure Frag)
    (closeFails : Img → Bool) (selected_pages : List Nat) :
    (∀ e, (ocr_pdf_pages_fallible convert ocr closeFails
        (normalize_main selected_pages)).2 = Except.error e →
      ∀ results, run_ocr_main_fallible convert ocr closeFails
        selected_pages ≠ Outcome.shown results) ∧
    (∀ e, (build_searchable_pdf_fallible convert ocrPdf closeFails
        (normalize_main selected_pages)).2 = Except.error e →
      ∀ frags, run_download_main convert ocrPdf closeFails
        selected_pages ≠ DownloadOutcome.artifact frags) ∧
    (∀ msg, selected_pages ≠ [] →
      (∀ f l, convert f l = Except.error msg) →
      run_ocr_main_fallible convert ocr closeFails selected_pages =
        Outcome.genericError msg ∧
      run_download_main convert ocrPdf closeFails selected_pages =
        DownloadOutcome.genericError msg) ∧
    (selected_pages ≠ [] →
      (∀ f l, ∃ imgs, convert f l = Except.ok imgs) →
      (∀ img, ocr img = Except.error OcrFailure.notFound) →
      (∀ img, ocrPdf img = Except.error OcrFailure.notFound) →
      run_ocr_main_fallible convert ocr closeFails selected_pages =
        Outcome.configError ∧
      run_download_main convert ocrPdf closeFails selected_pages =
        DownloadOutcome.configError) := by
  have hsetup : selected_pages ≠ [] →
      (normalize_main selected_pages ≠ [] ∧
       unique_pages (normalize_main selected_pages) ≠ []) ∧
      ∃ c ctail,
        contiguous_chunks (ordered_pages (normalize_main selected_pages)) =
          c :: ctail ∧ c ≠ [] := by
    intro hne
    have h1 : normalize_main selected_pages ≠ [] :=
      normalize_main_ne_nil selected_pages hne
    have h3 : contiguous_chunks
        (ordered_pages (normalize_main selected_pages)) ≠ [] :=
      contiguous_chunks_not_nil _ (ordered_pages_ne_nil _ h1)
    obtain ⟨c, ctail, hc⟩ := List.exists_cons_of_ne_nil h3
    refine ⟨⟨h1, unique_pages_ne_nil _ h1⟩, c, ctail, hc, ?_⟩
    exact contiguous_chunks_ne_nil _ c
      (by rw [hc]; exact List.mem_cons_self c ctail)
  refine ⟨?_, ?_, ?_, ?_⟩
  · intro e he results
    simp only [run_ocr_main_fallible, he]
    cases e with
    | raster m => simp
    | engine e2 => cases e2 <;> simp
  · intro e he frags
    simp only [run_download_main, he]
    cases e with
    | raster m => simp
    | engine e2 => cases e2 <;> simp
  · intro msg hne hconv
    obtain ⟨⟨h1, h2⟩, c, ctail, hc, hcne⟩ := hsetup hne
    have herr : (ocr_pdf_pages_fallible convert ocr closeFails
        (normalize_main selected_pages)).2 =
        Except.error (BatchFailure.raster msg) := by
      simp only [ocr_pdf_pages_fallible, if_neg h1, if_neg h2, hc]
      exact ocrChunksGo_raster_head convert ocr closeFails c ctail msg
        (hconv c.headI (c.getLastD 0))
    have herrB : (build_searchable_pdf_fallible convert ocrPdf closeFails
        (normalize_main selected_pages)).2 =
        Except.error (BatchFailure.raster msg) := by
      simp only [build_searchable_pdf_fallible, if_neg h1, if_neg h2, hc]
      exact buildChunksGo_raster_head convert ocrPdf closeFails c ctail msg
        (hconv c.headI (c.getLastD 0))
    exact ⟨by simp only [run_ocr_main_fallible, herr],
           by simp only [run_download_main, herrB]⟩
  · intro hne hconv hocr hocrPdf
    obtain ⟨⟨h1, h2⟩, c, ctail, hc, hcne⟩ := hsetup hne
    obtain ⟨imgs, himgs⟩ := hconv c.headI (c.getLastD 0)
    cases hpc : pairsOfChunk c imgs with
    | nil => exact absurd hpc (pairsOfChunk_ne_nil c imgs hcne)
    | cons pi rest =>
      obtain ⟨p, img⟩ := pi
      have herr : (ocr_pdf_pages_fallible convert ocr closeFails
          (normalize_main selected_pages)).2 =
          Except.error (BatchFailure.engine OcrFailure.notFound) := by
        simp only [ocr_pdf_pages_fallible, if_neg h1, if_neg h2, hc]
        refine ocrChunksGo_engine_head convert ocr closeFails c ctail imgs
          _ himgs ?_
        rw [hpc]
        exact ocrPagesGo_error_head ocr closeFails p img rest _ (hocr img)
      have herrB : (build_searchable_pdf_fallible convert ocrPdf closeFails
          (normalize_main selected_pages)).2 =
          Except.error (BatchFailure.engine OcrFailure.notFound) := by
        simp only [build_searchable_pdf_fallible, if_neg h1, if_neg h2, hc]
        refine buildChunksGo_engine_head convert ocrPdf closeFails c ctail
          imgs _ himgs ?_
        rw [hpc]
        exact buildPdfGo_error_head ocrPdf closeFails p img rest _
          (hocrPdf img)
      exact ⟨by simp only [run_ocr_main_fallible, herr],
             by simp only [run_download_main, herrB]⟩

/-- Witness for C5: one selected page, a succeeding rasterizer, and an
engine whose executable is never found — both operation boundaries report
the configuration error and show no page output. -/
theorem ocr_error_all_or_nothing_witness :
    ([1] : List Nat) ≠ [] ∧
    run_ocr_main_fallible (fun _ _ => Except.ok ([()] : List Unit))
      (fun _ => Except.error OcrFailure.notFound) (fun _ => false) [1] =
      Outcome.configError ∧
    run_download_main (fun _ _ => Except.ok ([()] : List Unit))
      (fun _ => Except.error OcrFailure.notFound :
        Unit → Except OcrFailure String) (fun _ => false) [1] =
      DownloadOutcome.configError :=
  ⟨by decide,
   ((ocr_error_all_or_nothing (fun _ _ => Except.ok ([()] : List Unit))
      (fun _ => Except.error OcrFailure.notFound)
      (fun _ => Except.error OcrFailure.notFound :
        Unit → Except OcrFailure String)
      (fun _ => false) [1]).2.2.2 (by decide) (fun f l => ⟨[()], rfl⟩)
      (fun _ => rfl) (fun _ => rfl)).1,
   ((ocr_error_all_or_nothing (fun _ _ => Except.ok ([()] : List Unit))
      (fun _ => Except.error OcrFailure.notFound)
      (fun _ => Except.error OcrFailure.notFound :
        Unit → Except OcrFailure String)
      (fun _ => false) [1]).2.2.2 (by decide) (fun f l => ⟨[()], rfl⟩)
      (fun _ => rfl) (fun _ => rfl)).2⟩

/-- C6: every image the OCR loops consume (every image with an OCR-engine
call in the trace) also gets a `close()` call in the trace, whether its
OCR call succeeded or raised; and a failure raised by `close()` itself is
swallowed — the returned results or propagated error are identical for any
two close behaviours. -/
theorem image_close_on_all_paths {Img Frag : Type} [Inhabited Img]
    (convert : Nat → Nat → List Img) (ocr : Img → Except OcrFailure String)
    (ocrPdf : Img → Except OcrFailure Frag)
    (closeFails closeFails2 : Img → Bool) (pages : List Nat) :
    (∀ img,
        Event.ocrCall img ∈ (ocr_pdf_pages convert ocr closeFails pages).1 →
        Event.closeCall img ∈
          (ocr_pdf_pages convert ocr closeFails pages).1) ∧
    (ocr_pdf_pages convert ocr closeFails pages).2 =
      (ocr_pdf_pages convert ocr closeFails2 pages).2 ∧
    (∀ img,
        Event.ocrCall img ∈
          (build_searchable_pdf convert ocrPdf closeFails pages).1 →
        Event.closeCall img ∈
          (build_searchable_pdf convert ocrPdf closeFails pages).1) ∧
    (build_searchable_pdf convert ocrPdf closeFails pages).2 =
      (build_searchable_pdf convert ocrPdf closeFails2 pages).2 :=
  ⟨ocrPagesGo_close ocr closeFails _,
   ocrPagesGo_result_indep ocr closeFails closeFails2 _,
   buildPdfGo_close ocrPdf closeFails _,
   buildPdfGo_result_indep ocrPdf closeFails closeFails2 _⟩

/-- Witness for C6: page 1 is rasterized and OCR'd, and its image is
closed even though the close behaviour is set to fail. -/
theorem image_close_on_all_paths_witness :
    Event.ocrCall 1 ∈
      (ocr_pdf_pages (fun f l => List.range' f (l + 1 - f))
        (fun i => Except.ok (toString i)) (fun _ => true) [1]).1 ∧
    Event.closeCall 1 ∈
      (ocr_pdf_pages (fun f l => List.range' f (l + 1 - f))
        (fun i => Except.ok (toString i)) (fun _ => true) [1]).1 :=
  ⟨by decide,
   (image_close_on_all_paths (fun f l => List.range' f (l + 1 - f))
      (fun i => Except.ok (toString i))
      (fun i => Except.ok (toString i) : Nat → Except OcrFailure String)
      (fun _ => true) (fun _ => false) [1]).1 1 (by decide)⟩

theorem consecutive_last : ∀ c : List Nat, c ≠ [] →
    List.Chain' (fun a b => b = a + 1) c →
    c.getLastD 0 + 1 = c.headI + c.length := by
  intro c
  induction c with
  | nil => intro h _; exact absurd rfl h
  | cons a t ih =>
    intro _ hc
    cases t with
    | nil => simp [List.getLastD]
    | cons b t2 =>
      obtain ⟨hab, ht⟩ := List.chain'_cons.mp hc
      have hIH := ih (by simp) ht
      have hirr := getLastD_default_irrel (b :: t2) (by simp) a 0
      rw [List.getLastD_cons, hirr]
      simp only [List.headI_cons, List.length_cons] at hIH ⊢
      omega

/-- C10: every chunk produced by `contiguous_chunks` is non-empty and
covers exactly the range `[first, last]` (`chunk[-1] + 1 = chunk[0] +
len(chunk)`); hence when the backend returns one image per page of that
range, every index `chunk_images[offset]` accessed by `iter_pdf_images`
is in bounds; and the guards of `iter_pdf_images` ensure
`contiguous_chunks` is only applied to a non-empty list, so its
`numbers[0]` access is safe. -/
theorem chunk_bounds_safe (numbers : List Nat) :
    (∀ c ∈ contiguous_chunks numbers,
      c ≠ [] ∧ c.getLastD 0 + 1 = c.headI + c.length) ∧
    (∀ c ∈ contiguous_chunks numbers, ∀ (Img : Type)
        (convert : Nat → Nat → List Img),
      (convert c.headI (c.getLastD 0)).length =
        c.getLastD 0 + 1 - c.headI →
      ∀ offset < c.length,
        offset < (convert c.headI (c.getLastD 0)).length) ∧
    (∀ pages : List Nat, pages ≠ [] →
      unique_pages pages ≠ [] ∧ ordered_pages pages ≠ []) := by
  have hmain : ∀ c ∈ contiguous_chunks numbers,
      c ≠ [] ∧ c.getLastD 0 + 1 = c.headI + c.length := by
    intro c hc
    have hne := contiguous_chunks_ne_nil numbers c hc
    exact ⟨hne, consecutive_last c hne
      (contiguous_chunks_consecutive numbers c hc)⟩
  refine ⟨hmain, ?_, ?_⟩
  · intro c hc Img convert hlen offset hoff
    obtain ⟨hne, hlast⟩ := hmain c hc
    rw [hlen]
    omega
  · intro pages hp
    exact ⟨unique_pages_ne_nil pages hp, ordered_pages_ne_nil pages hp⟩

/-- Witness for C10: the chunk `[1, 2]` of the input `[1, 2]`, a backend
returning exactly the requested range, and the last in-chunk offset. -/
theorem chunk_bounds_safe_witness :
    ([1, 2] ∈ contiguous_chunks [1, 2] ∧ ([1, 2] : List Nat) ≠ [] ∧
      ([1, 2] : List Nat).getLastD 0 + 1 =
        ([1, 2] : List Nat).headI + ([1, 2] : List Nat).length) ∧
    (1 : Nat) < (List.range' 1 2).length :=
  ⟨⟨by decide, (chunk_bounds_safe [1, 2]).1 [1, 2] (by decide)⟩,
   (chunk_bounds_safe [1, 2]).2.1 [1, 2] (by decide) Nat
     (fun f l => List.range' f (l + 1 - f)) (by decide) 1 (by decide)⟩

end OCRApp
